import Mathlib

set_option maxHeartbeats 1000000

/-!
Shallow embedding of the GICv3 per-core interrupt-virtualization layer
(src/src/device/gicv3/mod.rs). Machine integers are embedded as Nat: usize
and u64 values are below 2 ^ 64, u32 casts truncate modulo 2 ^ 32, and the
64-bit left shift in the injection encoding wraps modulo 2 ^ 64. The hardware
list-register file together with its empty-list-status bitmap (ich_elrsr_el2)
is embedded as a list of optional 64-bit values: a slot is none exactly when
the bitmap marks it empty (the bitmap is assumed to reflect occupancy
accurately), and an occupied slot carries its encoded 64-bit value.
-/

/-- Classifier from the source: an identifier is an SGI iff it is below 16.
The source takes a u32 argument. -/
def is_sgi (irqn : Nat) : Bool := decide (irqn < 16)

/-- Classifier from the source: an identifier is a PPI iff it is above 15 and
below 32. -/
def is_ppi (irqn : Nat) : Bool := decide (15 < irqn) && decide (irqn < 32)

/-- Classifier from the source: an identifier is an SPI iff it is above 31 and
below 1020. -/
def is_spi (irqn : Nat) : Bool := decide (31 < irqn) && decide (irqn < 1020)

/-- Acknowledge step of the completion engine: the source reads icc_iar1_el1
(the raw value is the argument here) and treats any value at or above 0x3fe as
a spurious marker, returning none; any smaller value is a real pending id. -/
def pending_irq (iar : Nat) : Option Nat :=
  if iar ≥ 0x3fe then none else some iar

/-- Completion registers written by the deactivation routine. -/
inductive CpuReg where
  | eoir1 : CpuReg
  | dir : CpuReg
  deriving DecidableEq, Repr

/-- Deactivation routine as its register-write trace: the source writes
icc_eoir1_el1 with the id (priority drop), and additionally writes
icc_dir_el1 with the id when the id is below 16. -/
def deactivate_irq (irq_id : Nat) : List (CpuReg × Nat) :=
  (CpuReg.eoir1, irq_id) :: (if irq_id < 16 then [(CpuReg.dir, irq_id)] else [])

/-- Slot read accessor from the source: a sixteen-way match on the index; the
default arm is a fatal diagnostic (error print followed by an infinite loop),
embedded as none. The per-index hardware registers are passed explicitly as a
register bank. The match never consults the hardware-reported slot count. -/
def read_lr (regs : Nat → Nat) (id : Nat) : Option Nat :=
  match id with
  | 0 => some (regs 0)
  | 1 => some (regs 1)
  | 2 => some (regs 2)
  | 3 => some (regs 3)
  | 4 => some (regs 4)
  | 5 => some (regs 5)
  | 6 => some (regs 6)
  | 7 => some (regs 7)
  | 8 => some (regs 8)
  | 9 => some (regs 9)
  | 10 => some (regs 10)
  | 11 => some (regs 11)
  | 12 => some (regs 12)
  | 13 => some (regs 13)
  | 14 => some (regs 14)
  | 15 => some (regs 15)
  | _ => none

/-- Slot write accessor from the source: a sixteen-way match on the index; an
in-range index performs the register write (embedded as the index-value pair
written), and the default arm is the same fatal diagnostic as in read_lr,
embedded as none. The match never consults the hardware-reported slot count. -/
def write_lr (id : Nat) (val : Nat) : Option (Nat × Nat) :=
  match id with
  | 0 => some (0, val)
  | 1 => some (1, val)
  | 2 => some (2, val)
  | 3 => some (3, val)
  | 4 => some (4, val)
  | 5 => some (5, val)
  | 6 => some (6, val)
  | 7 => some (7, val)
  | 8 => some (8, val)
  | 9 => some (9, val)
  | 10 => some (10, val)
  | 11 => some (11, val)
  | 12 => some (12, val)
  | 13 => some (13, val)
  | 14 => some (14, val)
  | 15 => some (15, val)
  | _ => none

/-- Value the injection engine writes into a free list register: the virtual
id in the low bits, the group-1 bit 60 and the pending-state bit 62; for a
non-SGI id injected as hardware, additionally the hardware-mapped bit 61 and
the physical id shifted into bit 32 and up. The id is a usize; the source
casts it to u32 before the SGI test (truncation modulo 2 ^ 32) and to u64 for
the shift, which wraps modulo 2 ^ 64. -/
def inject_encode (irq_id : Nat) (is_hardware : Bool) : Nat :=
  let val := irq_id ||| (1 <<< 60) ||| (1 <<< 62)
  if !(is_sgi (irq_id % 2 ^ 32)) && is_hardware then
    val ||| (1 <<< 61) ||| ((irq_id <<< 32) % 2 ^ 64)
  else val

/-- Result of the scan loop inside the injection engine: either an early
return because the id is already in flight, or the loop ran to the end and
carries the first free index it saw (the free_ir accumulator, none standing
for the -1 sentinel). -/
inductive LrScan where
  | dup : LrScan
  | done : Option Nat → LrScan
  deriving DecidableEq, Repr

/-- Scan loop of the injection engine over the list-register state. A none
slot is one the empty-list-status bitmap marks free: the loop records the
first such index and skips the value check. An occupied slot has its low 32
bits (LR_VIRTIRQ_MASK) compared against the id, returning early on a match. -/
def inject_scan (irq_id : Nat) : List (Option Nat) → Nat → Option Nat → LrScan
  | [], _, free => .done free
  | none :: rest, i, free => inject_scan irq_id rest (i + 1) (free <|> some i)
  | some v :: rest, i, free =>
    if v % 2 ^ 32 == irq_id then .dup else inject_scan irq_id rest (i + 1) free

/-- Injection engine: scan all implemented slots (the state list has exactly
the implemented slots); on a duplicate in-flight id return with the state
unchanged; otherwise write the encoded value into the first free slot, or
fail fatally (none embeds the halt on list-register exhaustion). -/
def inject_irq (slots : List (Option Nat)) (irq_id : Nat) (is_hardware : Bool) :
    Option (List (Option Nat)) :=
  match inject_scan irq_id slots 0 none with
  | .dup => some slots
  | .done none => none
  | .done (some k) => some (slots.set k (some (inject_encode irq_id is_hardware)))

/-- Register writes issued by the clear routine: list-register writes and
active-priority (ICH_AP1Rn_EL2) writes, each carrying the value written. -/
inductive GicWrite where
  | lr : Nat → Nat → GicWrite
  | ap : Nat → Nat → GicWrite
  deriving DecidableEq, Repr

/-- Test for an active-priority register write. -/
def GicWrite.isAp : GicWrite → Bool
  | .ap _ _ => true
  | _ => false

/-- Test for a list-register write. -/
def GicWrite.isLr : GicWrite → Bool
  | .lr _ _ => true
  | _ => false

/-- Clear routine as its register-write trace, as a function of the ich_vtr_el2
capability value: write 0 to list registers 0..lr_num with lr_num the low four
bits plus one, then clear the implemented active-priority registers according
to num_priority_bits, the bits from bit 29 up, plus one. -/
def gicv3_clear_pending_irqs (vtr : Nat) : List GicWrite :=
  let lr_num := vtr % 16 + 1
  let num_priority_bits := vtr / 2 ^ 29 + 1
  (List.range lr_num).map (fun i => GicWrite.lr i 0) ++
    ((if num_priority_bits ≥ 5 then [GicWrite.ap 0 0] else []) ++
      (if num_priority_bits ≥ 6 then [GicWrite.ap 1 0] else []) ++
      (if num_priority_bits > 6 then [GicWrite.ap 2 0, GicWrite.ap 3 0] else []))

/-- Effect of the clear routine's loop on the list-register state: each index
0..lr_num is written with 0, i.e. emptied. -/
def clear_state (slots : List (Option Nat)) (lr_num : Nat) : List (Option Nat) :=
  (List.range lr_num).foldl (fun s i => s.set i none) slots

/-- Operations the dispatch entry point performs, in order: collaborator
calls, deactivations and injections. -/
inductive DispatchOp where
  | deactivate : Nat → DispatchOp
  | inject : Nat → Bool → DispatchOp
  | checkEvents : DispatchOp
  | handleVirtioResult : DispatchOp
  deriving DecidableEq, Repr

/-- Dispatch entry point as the ordered operation sequence it performs for a
given raw acknowledge value. Modelled from the spec: the reserved identifiers
SGI_EVENT_ID, SGI_RESUME_ID and SGI_VIRTIO_RES_ID are declared in the
hypercall module, which is outside the given source; the spec fixes each to
an integer in 8..15, so they are taken as parameters here and constrained in
the theorems. All other branching follows the source. -/
def gicv3_handle_irq_el1 (iar sgiEvent sgiResume sgiVirtioRes : Nat) :
    List DispatchOp :=
  match pending_irq iar with
  | none => []
  | some irq_id =>
    if irq_id < 16 then
      if irq_id < 8 then
        [DispatchOp.deactivate irq_id, DispatchOp.inject irq_id false]
      else if irq_id = sgiEvent then
        [DispatchOp.checkEvents, DispatchOp.deactivate irq_id]
      else if irq_id = sgiResume then []
      else if irq_id = sgiVirtioRes then
        [DispatchOp.handleVirtioResult, DispatchOp.deactivate irq_id]
      else []
    else [DispatchOp.inject irq_id true, DispatchOp.deactivate irq_id]

/-- Predicate: some occupied slot's low 32 bits equal the given id. -/
def hasVid (irq_id : Nat) : List (Option Nat) → Bool
  | [] => false
  | none :: rest => hasVid irq_id rest
  | some v :: rest => (v % 2 ^ 32 == irq_id) || hasVid irq_id rest

/-- Index of the first free slot of the state, if any. -/
def firstFreeIdx : List (Option Nat) → Option Nat
  | [] => none
  | none :: _ => some 0
  | some _ :: rest => (firstFreeIdx rest).map (· + 1)

/-- Duplicate-free in-flight invariant: no two occupied slots carry the same
virtual id (the low 32 bits of the slot value). -/
def vidsOk (slots : List (Option Nat)) : Prop :=
  ∀ i j v w, i ≠ j → slots.get? i = some (some v) → slots.get? j = some (some w) →
    v % 2 ^ 32 ≠ w % 2 ^ 32

/-- Number of occupied slots whose virtual id equals the given id. -/
def countVid (irq_id : Nat) (slots : List (Option Nat)) : Nat :=
  slots.countP (fun s => match s with
    | some v => v % 2 ^ 32 == irq_id
    | none => false)

/-- Sequential injection of a list of ids, propagating the fatal failure. -/
def injectAll (is_hardware : Bool) (ids : List Nat) (slots : List (Option Nat)) :
    Option (List (Option Nat)) :=
  ids.foldl (fun acc a => acc.bind (fun s => inject_irq s a is_hardware)) (some slots)

/-- Claim C9: for every identifier below 1020 exactly one of the three
classifiers holds, and for every identifier at or above 1020 all three are
false. -/
theorem irq_classifier_partition (id : Nat) :
    (id < 1020 →
      (is_sgi id = true ∧ is_ppi id = false ∧ is_spi id = false) ∨
      (is_sgi id = false ∧ is_ppi id = true ∧ is_spi id = false) ∨
      (is_sgi id = false ∧ is_ppi id = false ∧ is_spi id = true)) ∧
    (1020 ≤ id → is_sgi id = false ∧ is_ppi id = false ∧ is_spi id = false) := by
  constructor <;> intro h <;> simp [is_sgi, is_ppi, is_spi] <;> omega

/-- Witness for irq_classifier_partition at identifiers 20 and 2000. -/
theorem irq_classifier_partition_witness :
    ((is_sgi 20 = true ∧ is_ppi 20 = false ∧ is_spi 20 = false) ∨
      (is_sgi 20 = false ∧ is_ppi 20 = true ∧ is_spi 20 = false) ∨
      (is_sgi 20 = false ∧ is_ppi 20 = false ∧ is_spi 20 = true)) ∧
    (is_sgi 2000 = false ∧ is_ppi 2000 = false ∧ is_spi 2000 = false) :=
  ⟨(irq_classifier_partition 20).1 (by decide),
   (irq_classifier_partition 2000).2 (by decide)⟩

/-- Claim C8: the acknowledge step returns none exactly for raw values at or
above 0x3fe, in particular for 0x3fe and 0x3ff, and returns the value itself
below that. -/
theorem pending_irq_spurious (v : Nat) :
    pending_irq 0x3fe = none ∧ pending_irq 0x3ff = none ∧
    (0x3fe ≤ v → pending_irq v = none) ∧ (v < 0x3fe → pending_irq v = some v) := by
  refine ⟨rfl, rfl, fun h => ?_, fun h => ?_⟩ <;> simp [pending_irq] <;> omega

/-- Witness for pending_irq_spurious at 5 and 0x3fe. -/
theorem pending_irq_spurious_witness :
    pending_irq 5 = some 5 ∧ pending_irq 0x3fe = none :=
  ⟨(pending_irq_spurious 5).2.2.2 (by decide), (pending_irq_spurious 5).1⟩

/-- Claim C7: deactivation issues the priority-drop write first and the
explicit deactivation write second for identifiers below 16, and only the
priority-drop write for identifiers at or above 16, all with the id as
value. -/
theorem deactivate_irq_write_seq (irq_id : Nat) :
    (irq_id < 16 →
      deactivate_irq irq_id = [(CpuReg.eoir1, irq_id), (CpuReg.dir, irq_id)]) ∧
    (16 ≤ irq_id → deactivate_irq irq_id = [(CpuReg.eoir1, irq_id)]) := by
  constructor
  · intro h
    simp [deactivate_irq, h]
  · intro h
    rw [deactivate_irq, if_neg (by omega)]

/-- Witness for deactivate_irq_write_seq at identifiers 3 and 20. -/
theorem deactivate_irq_write_seq_witness :
    deactivate_irq 3 = [(CpuReg.eoir1, 3), (CpuReg.dir, 3)] ∧
    deactivate_irq 20 = [(CpuReg.eoir1, 20)] :=
  ⟨(deactivate_irq_write_seq 3).1 (by decide),
   (deactivate_irq_write_seq 20).2 (by decide)⟩

/-- Claim C10: the slot accessors perform the register access for every index
below 16 with no comparison against the implemented slot count, and reach the
fatal diagnostic branch exactly for indices at or above 16; in particular an
index between the implemented count N and 16 still performs an ordinary
access. -/
theorem lr_access_unchecked (regs : Nat → Nat) (id val N : Nat) :
    (id < 16 → read_lr regs id = some (regs id) ∧ write_lr id val = some (id, val)) ∧
    (16 ≤ id → read_lr regs id = none ∧ write_lr id val = none) ∧
    (N ≤ id → id < 16 →
      read_lr regs id = some (regs id) ∧ write_lr id val = some (id, val)) := by
  refine ⟨fun h => ?_, fun h => ?_, fun _ h => ?_⟩
  · interval_cases id <;> exact ⟨rfl, rfl⟩
  · obtain ⟨k, rfl⟩ : ∃ k, id = k + 16 := ⟨id - 16, by omega⟩
    exact ⟨rfl, rfl⟩
  · interval_cases id <;> exact ⟨rfl, rfl⟩

/-- Witness for lr_access_unchecked at indices 7 (with N = 2) and 20. -/
theorem lr_access_unchecked_witness :
    (read_lr (fun _ => 9) 7 = some 9 ∧ write_lr 7 5 = some (7, 5)) ∧
    (read_lr (fun _ => 9) 20 = none ∧ write_lr 20 5 = none) :=
  ⟨(lr_access_unchecked (fun _ => 9) 7 5 2).2.2 (by decide) (by decide),
   (lr_access_unchecked (fun _ => 9) 20 5 2).2.1 (by decide)⟩

/-- Claim C4: dispatch routing at literal acknowledge values: 5 gives
deactivate then software injection, the cross-core-event identifier gives the
event check then deactivate, 33 gives hardware injection then deactivate, and
the spurious value 0x3ff gives no operations at all. -/
theorem gicv3_dispatch_routing (e r v : Nat) (he1 : 8 ≤ e) (he2 : e < 16) :
    gicv3_handle_irq_el1 5 e r v = [DispatchOp.deactivate 5, DispatchOp.inject 5 false] ∧
    gicv3_handle_irq_el1 e e r v = [DispatchOp.checkEvents, DispatchOp.deactivate e] ∧
    gicv3_handle_irq_el1 33 e r v = [DispatchOp.inject 33 true, DispatchOp.deactivate 33] ∧
    gicv3_handle_irq_el1 0x3ff e r v = [] := by
  refine ⟨rfl, ?_, rfl, rfl⟩
  simp [gicv3_handle_irq_el1, pending_irq, show ¬(0x3fe ≤ e) by omega, he2,
    show ¬(e < 8) by omega]

/-- Witness for gicv3_dispatch_routing with the cross-core-event identifier
taken as 10. -/
theorem gicv3_dispatch_routing_witness :
    gicv3_handle_irq_el1 5 10 11 12 = [DispatchOp.deactivate 5, DispatchOp.inject 5 false] ∧
    gicv3_handle_irq_el1 10 10 11 12 = [DispatchOp.checkEvents, DispatchOp.deactivate 10] ∧
    gicv3_handle_irq_el1 33 10 11 12 = [DispatchOp.inject 33 true, DispatchOp.deactivate 33] ∧
    gicv3_handle_irq_el1 0x3ff 10 11 12 = [] :=
  gicv3_dispatch_routing 10 11 12 (by decide) (by decide)

/-- Helper: the list-register part of the clear trace holds no active-priority
write, and active-priority writes are not list-register writes. -/
theorem countP_isAp_map_lr (n : Nat) :
    ((List.range n).map (fun i => GicWrite.lr i 0)).countP GicWrite.isAp = 0 := by
  induction n with
  | zero => rfl
  | succ m ih =>
    rw [List.range_succ, List.map_append, List.countP_append, ih]
    rfl

/-- Helper: the list-register prefix of the clear trace is kept unchanged by
the list-register filter. -/
theorem filter_isLr_map_lr (n : Nat) :
    ((List.range n).map (fun i => GicWrite.lr i 0)).filter GicWrite.isLr =
      (List.range n).map (fun i => GicWrite.lr i 0) := by
  apply List.filter_eq_self.mpr
  intro a ha
  obtain ⟨i, _, rfl⟩ := List.mem_map.mp ha
  rfl

/-- Claim C6: with p the implemented priority-bit count (capability top three
bits plus one), the clear routine clears exactly 0, 1, 2 or 4 active-priority
registers for p below 5, equal to 5, equal to 6 and above 6 respectively, and
writes the empty value to every list-register slot 0..N. -/
theorem gicv3_clear_ap_writes (vtr : Nat) (hv : vtr < 2 ^ 32) :
    ((gicv3_clear_pending_irqs vtr).countP GicWrite.isAp =
      if vtr / 2 ^ 29 + 1 < 5 then 0
      else if vtr / 2 ^ 29 + 1 = 5 then 1
      else if vtr / 2 ^ 29 + 1 = 6 then 2 else 4) ∧
    (gicv3_clear_pending_irqs vtr).filter GicWrite.isLr =
      (List.range (vtr % 16 + 1)).map (fun i => GicWrite.lr i 0) := by
  constructor
  · rw [gicv3_clear_pending_irqs]
    simp only [List.countP_append, countP_isAp_map_lr]
    by_cases h5 : vtr / 2 ^ 29 + 1 < 5
    · rw [if_neg (by omega), if_neg (by omega), if_neg (by omega), if_pos h5]
      rfl
    · by_cases h6 : vtr / 2 ^ 29 + 1 = 5
      · rw [if_pos (by omega), if_neg (by omega), if_neg (by omega),
          if_neg (by omega), if_pos h6]
        rfl
      · by_cases h7 : vtr / 2 ^ 29 + 1 = 6
        · rw [if_pos (by omega), if_pos (by omega), if_neg (by omega),
            if_neg (by omega), if_neg (by omega), if_pos h7]
          rfl
        · rw [if_pos (by omega), if_pos (by omega), if_pos (by omega),
            if_neg (by omega), if_neg (by omega), if_neg (by omega)]
          rfl
  · rw [gicv3_clear_pending_irqs]
    simp only [List.filter_append, filter_isLr_map_lr]
    have h1 : ∀ b : Bool, (if b = true then [GicWrite.ap 0 0] else []).filter
        GicWrite.isLr = [] := by
      intro b
      cases b <;> rfl
    by_cases h5 : vtr / 2 ^ 29 + 1 ≥ 5 <;>
      by_cases h6 : vtr / 2 ^ 29 + 1 ≥ 6 <;>
        by_cases h7 : vtr / 2 ^ 29 + 1 > 6 <;>
          simp [h5, h6, h7, GicWrite.isLr] <;>
            rintro a - (rfl | rfl) <;> rfl

/-- Witness for gicv3_clear_ap_writes at a capability value reporting five
priority bits and four list registers. -/
theorem gicv3_clear_ap_writes_witness :
    ((gicv3_clear_pending_irqs (4 * 2 ^ 29 + 3)).countP GicWrite.isAp =
      if (4 * 2 ^ 29 + 3) / 2 ^ 29 + 1 < 5 then 0
      else if (4 * 2 ^ 29 + 3) / 2 ^ 29 + 1 = 5 then 1
      else if (4 * 2 ^ 29 + 3) / 2 ^ 29 + 1 = 6 then 2 else 4) ∧
    (gicv3_clear_pending_irqs (4 * 2 ^ 29 + 3)).filter GicWrite.isLr =
      (List.range ((4 * 2 ^ 29 + 3) % 16 + 1)).map (fun i => GicWrite.lr i 0) :=
  gicv3_clear_ap_writes (4 * 2 ^ 29 + 3) (by norm_num)

/-- Characterization of the scan loop: it returns dup exactly when some
occupied slot carries the id, and otherwise finishes with the accumulator if
already set, else the first free index offset by the start position. -/
theorem inject_scan_eq (irq_id : Nat) (l : List (Option Nat)) (i : Nat) (acc : Option Nat) :
    inject_scan irq_id l i acc =
      if hasVid irq_id l then LrScan.dup
      else LrScan.done (acc <|> (firstFreeIdx l).map (· + i)) := by
  induction l generalizing i acc with
  | nil => simp [inject_scan, hasVid, firstFreeIdx]
  | cons s rest ih =>
    cases s with
    | none =>
      rw [inject_scan, ih, hasVid, firstFreeIdx]
      by_cases h : hasVid irq_id rest
      · simp [h]
      · simp only [h, if_false, Bool.false_eq_true]
        cases acc <;> simp
    | some v =>
      by_cases hv : (v % 2 ^ 32 == irq_id) = true
      · rw [inject_scan, if_pos hv, hasVid, hv]
        simp
      · rw [inject_scan, if_neg hv, ih, hasVid, firstFreeIdx]
        by_cases h : hasVid irq_id rest
        · simp [h, hv]
        · simp only [h, hv, Bool.false_or, if_false, Bool.false_eq_true]
          cases hf : firstFreeIdx rest <;> simp [Nat.add_assoc, Nat.add_comm 1 i]

/-- Outcome characterization of the injection engine: a no-op on an in-flight
id, otherwise a write of the encoded value to the first free slot, otherwise
the fatal exhaustion. -/
theorem inject_irq_eq (slots : List (Option Nat)) (irq_id : Nat) (hw : Bool) :
    inject_irq slots irq_id hw =
      if hasVid irq_id slots then some slots
      else
        match firstFreeIdx slots with
        | none => none
        | some k => some (slots.set k (some (inject_encode irq_id hw))) := by
  rw [inject_irq, inject_scan_eq]
  by_cases h : hasVid irq_id slots
  · simp [h]
  · simp only [h, if_false, Bool.false_eq_true]
    cases firstFreeIdx slots <;> simp

/-- The scan's duplicate test is exhaustive: hasVid is false exactly when no
occupied slot of the state carries the id in its low 32 bits. -/
theorem hasVid_eq_false_iff (irq_id : Nat) (l : List (Option Nat)) :
    hasVid irq_id l = false ↔ ∀ v, some v ∈ l → v % 2 ^ 32 ≠ irq_id := by
  induction l with
  | nil => simp [hasVid]
  | cons s rest ih =>
    cases s with
    | none => simp [hasVid, ih]
    | some v =>
      rw [hasVid, Bool.or_eq_false_iff, ih]
      constructor
      · rintro ⟨h1, h2⟩ w hw
        rcases List.mem_cons.mp hw with h | h
        · cases h
          intro hc
          rw [beq_eq_false_iff_ne] at h1
          exact h1 hc
        · exact h2 w h
      · intro h
        refine ⟨?_, fun w hw => h w (List.mem_cons_of_mem _ hw)⟩
        have := h v (List.mem_cons_self _ _)
        simpa using this

/-- A witnessing occupied slot makes hasVid true. -/
theorem hasVid_of_mem {irq_id v : Nat} {l : List (Option Nat)}
    (hm : some v ∈ l) (hv : v % 2 ^ 32 = irq_id) : hasVid irq_id l = true := by
  by_contra h
  rw [Bool.not_eq_true] at h
  exact (hasVid_eq_false_iff irq_id l).mp h v hm hv

/-- The first free index returned by the scan really is a free slot. -/
theorem firstFreeIdx_get {l : List (Option Nat)} {k : Nat}
    (h : firstFreeIdx l = some k) : l.get? k = some none := by
  induction l generalizing k with
  | nil => simp [firstFreeIdx] at h
  | cons s rest ih =>
    cases s with
    | none =>
      rw [firstFreeIdx] at h
      cases h
      rfl
    | some v =>
      rw [firstFreeIdx] at h
      rcases hf : firstFreeIdx rest with _ | k2 <;> rw [hf] at h
      · simp at h
      · simp at h
        subst h
        exact ih hf

/-- Low 32 bits of the encoded slot value equal the id's low 32 bits in both
branches of the encoder. -/
theorem inject_encode_mod (irq_id : Nat) (hw : Bool) :
    inject_encode irq_id hw % 2 ^ 32 = irq_id % 2 ^ 32 := by
  have key : ∀ x : Nat,
      ((x ||| 1 <<< 60 ||| 1 <<< 62) % 2 ^ 32 = x % 2 ^ 32) ∧
      ((x ||| 1 <<< 60 ||| 1 <<< 62 ||| 1 <<< 61 ||| (x <<< 32) % 2 ^ 64) % 2 ^ 32 =
        x % 2 ^ 32) := by
    intro x
    constructor <;>
      · apply Nat.eq_of_testBit_eq
        intro i
        simp only [Nat.testBit_mod_two_pow, Nat.testBit_or, Nat.one_shiftLeft,
          Nat.testBit_two_pow, Nat.testBit_shiftLeft]
        by_cases hi : i < 32
        · simp [hi, show ¬(60 = i) by omega, show ¬(62 = i) by omega,
            show ¬(61 = i) by omega, show ¬(32 ≤ i) by omega]
        · simp [hi]
  simp only [inject_encode]
  split
  · exact (key irq_id).2
  · exact (key irq_id).1

/-- Clearing slots does not change the length of the state. -/
theorem clear_state_length (s : List (Option Nat)) (n : Nat) :
    (clear_state s n).length = s.length := by
  induction n with
  | zero => rfl
  | succ m ih =>
    rw [clear_state, List.range_succ, List.foldl_append]
    simp only [List.foldl_cons, List.foldl_nil, List.length_set]
    exact ih

/-- Pointwise description of the cleared state: positions below the clear
bound read as empty (when in range), other positions are untouched. -/
theorem clear_state_get (s : List (Option Nat)) (n i : Nat) :
    (clear_state s n).get? i =
      if i < n then (s.get? i).map (fun _ => none) else s.get? i := by
  induction n with
  | zero => simp [clear_state]
  | succ m ih =>
    have step : clear_state s (m + 1) = (clear_state s m).set m none := by
      rw [clear_state, clear_state, List.range_succ, List.foldl_append]
      rfl
    rw [step]
    by_cases him : i = m
    · subst him
      by_cases hlen2 : i < s.length
      · rw [List.get?_set_eq_of_lt _ (by rw [clear_state_length]; exact hlen2),
          if_pos (by omega)]
        rcases hg : s.get? i with _ | x
        · rw [List.get?_eq_none] at hg
          omega
        · simp
      · rw [List.get?_eq_none.mpr (by rw [List.length_set, clear_state_length]; omega),
          if_pos (by omega), List.get?_eq_none.mpr (by omega)]
        rfl
    · rw [List.get?_set_ne _ _ (fun h => him h.symm), ih]
      by_cases hin : i < m
      · rw [if_pos hin, if_pos (by omega)]
      · rw [if_neg hin, if_neg (by omega)]

/-- Claim C1: assuming the empty-slot bitmap reflects occupancy (built into
the state embedding), clearing every slot establishes the duplicate-free
in-flight invariant and every completed injection preserves it: the engine
never writes a slot whose virtual id is already carried by an occupied
slot. -/
theorem gicv3_dedup_invariant (s0 slots slots' : List (Option Nat)) (irq_id : Nat)
    (hw : Bool) (hirq : irq_id < 2 ^ 32) (hinv : vidsOk slots)
    (hinj : inject_irq slots irq_id hw = some slots') :
    vidsOk (clear_state s0 s0.length) ∧ vidsOk slots' := by
  constructor
  · intro i j v w hij hi hj
    exfalso
    rw [clear_state_get] at hi
    by_cases hlt : i < s0.length
    · rw [if_pos hlt] at hi
      rcases h : s0.get? i with _ | sv <;> rw [h] at hi <;> simp at hi
    · rw [if_neg hlt, List.get?_eq_none.mpr (by omega)] at hi
      simp at hi
  · rw [inject_irq_eq] at hinj
    by_cases hdup : hasVid irq_id slots
    · rw [if_pos hdup] at hinj
      cases hinj
      exact hinv
    · rw [if_neg hdup] at hinj
      rcases hf : firstFreeIdx slots with _ | k <;> rw [hf] at hinj
      · simp at hinj
      · simp only [Option.some_inj] at hinj
        subst hinj
        have hfresh : ∀ v, some v ∈ slots → v % 2 ^ 32 ≠ irq_id :=
          (hasVid_eq_false_iff irq_id slots).mp (Bool.not_eq_true _ ▸ hdup)
        have hk : slots.get? k = some none := firstFreeIdx_get hf
        have hklen : k < slots.length := by
          rcases List.get?_eq_some.mp hk with ⟨h, _⟩
          exact h
        intro i j v w hij hi hj
        by_cases hik : i = k
        · subst hik
          rw [List.get?_set_eq_of_lt _ hklen] at hi
          have hv : v = inject_encode irq_id hw := by
            simpa using hi.symm
          subst hv
          rw [List.get?_set_ne _ _ hij] at hj
          rw [inject_encode_mod, Nat.mod_eq_of_lt hirq]
          exact fun hc => hfresh w (List.get?_mem hj) hc.symm
        · rw [List.get?_set_ne _ _ (fun h => hik h.symm)] at hi
          by_cases hjk : j = k
          · subst hjk
            rw [List.get?_set_eq_of_lt _ hklen] at hj
            have hww : w = inject_encode irq_id hw := by
              simpa using hj.symm
            subst hww
            rw [inject_encode_mod, Nat.mod_eq_of_lt hirq]
            exact hfresh v (List.get?_mem hi)
          · rw [List.get?_set_ne _ _ (fun h => hjk h.symm)] at hj
            exact hinv i j v w hij hi hj

/-- Witness for gicv3_dedup_invariant: clearing a two-slot state with a
duplicated id establishes the invariant, and injecting id 7 next to an
occupied slot holding id 5 preserves it. -/
theorem gicv3_dedup_invariant_witness :
    vidsOk (clear_state [some 1, some 1] 2) ∧
    vidsOk [some 5, some (inject_encode 7 false)] := by
  have hinv : vidsOk [some 5, none] := by
    intro i j v w hij hi hj
    rcases i with _ | _ | i <;> rcases j with _ | _ | j <;> simp_all
  exact gicv3_dedup_invariant [some 1, some 1] [some 5, none]
    [some 5, some (inject_encode 7 false)] 7 false (by norm_num) hinv rfl

/-- Unfolding step for the occupied-slot counter at an empty head. -/
theorem countVid_cons_none (irq_id : Nat) (rest : List (Option Nat)) :
    countVid irq_id (none :: rest) = countVid irq_id rest := by
  simp [countVid, List.countP_cons]

/-- Unfolding step for the occupied-slot counter at an occupied head. -/
theorem countVid_cons_some (irq_id v : Nat) (rest : List (Option Nat)) :
    countVid irq_id (some v :: rest) =
      countVid irq_id rest + if v % 2 ^ 32 == irq_id then 1 else 0 := by
  simp [countVid, List.countP_cons]

/-- With no occupied slot carrying the id, the counter is zero. -/
theorem countVid_eq_zero {irq_id : Nat} {l : List (Option Nat)}
    (h : hasVid irq_id l = false) : countVid irq_id l = 0 := by
  induction l with
  | nil => rfl
  | cons s rest ih =>
    cases s with
    | none =>
      rw [hasVid] at h
      rw [countVid_cons_none]
      exact ih h
    | some v =>
      rw [hasVid, Bool.or_eq_false_iff] at h
      obtain ⟨h1, h2⟩ := h
      rw [countVid_cons_some, ih h2, h1, if_neg Bool.false_ne_true]

/-- With some occupied slot carrying the id, the counter is positive. -/
theorem countVid_pos {irq_id : Nat} {l : List (Option Nat)}
    (h : hasVid irq_id l = true) : 1 ≤ countVid irq_id l := by
  induction l with
  | nil => simp [hasVid] at h
  | cons s rest ih =>
    cases s with
    | none =>
      rw [hasVid] at h
      rw [countVid_cons_none]
      exact ih h
    | some v =>
      rw [hasVid] at h
      rw [countVid_cons_some]
      by_cases hv : (v % 2 ^ 32 == irq_id) = true
      · rw [if_pos hv]
        omega
      · rw [Bool.not_eq_true] at hv
        rw [hv, Bool.false_or] at h
        rw [hv, if_neg Bool.false_ne_true]
        exact le_trans (ih h) (Nat.le_add_right _ _)

/-- The tail of an invariant-satisfying state satisfies the invariant. -/
theorem vidsOk_cons {s : Option Nat} {rest : List (Option Nat)}
    (h : vidsOk (s :: rest)) : vidsOk rest := by
  intro i j v w hij hi hj
  exact h (i + 1) (j + 1) v w (by omega) (by simpa using hi) (by simpa using hj)

/-- The head of an invariant-satisfying state clashes with no occupied tail
slot. -/
theorem vidsOk_head {v : Nat} {rest : List (Option Nat)}
    (h : vidsOk (some v :: rest)) :
    ∀ w, some w ∈ rest → w % 2 ^ 32 ≠ v % 2 ^ 32 := by
  intro w hw hc
  obtain ⟨j, hj⟩ := List.get?_of_mem hw
  exact h (j + 1) 0 w v (by omega) (by simpa using hj) rfl hc

/-- Under the duplicate-free invariant the counter never exceeds one. -/
theorem countVid_le_one {irq_id : Nat} : ∀ {l : List (Option Nat)},
    vidsOk l → countVid irq_id l ≤ 1 := by
  intro l
  induction l with
  | nil => intro _; simp [countVid]
  | cons s rest ih =>
    intro hinv
    cases s with
    | none =>
      rw [countVid_cons_none]
      exact ih (vidsOk_cons hinv)
    | some v =>
      rw [countVid_cons_some]
      by_cases hv : (v % 2 ^ 32 == irq_id) = true
      · have h0 : hasVid irq_id rest = false := by
          rw [hasVid_eq_false_iff]
          intro w hw
          have hne := vidsOk_head hinv w hw
          rw [beq_iff_eq] at hv
          rw [hv] at hne
          exact hne
        rw [countVid_eq_zero h0, if_pos hv]
      · rw [Bool.not_eq_true] at hv
        rw [hv, if_neg Bool.false_ne_true]
        have := ih (vidsOk_cons hinv)
        omega

/-- Counting after writing a free slot: the counter grows by one exactly when
the written value carries the id. -/
theorem countVid_set {irq_id e : Nat} : ∀ {l : List (Option Nat)} {k : Nat},
    l.get? k = some none →
    countVid irq_id (l.set k (some e)) =
      countVid irq_id l + (if e % 2 ^ 32 == irq_id then 1 else 0) := by
  intro l
  induction l with
  | nil =>
    intro k hk
    simp at hk
  | cons s rest ih =>
    intro k hk
    cases k with
    | zero =>
      simp only [List.get?_cons_zero, Option.some_inj] at hk
      subst hk
      rw [List.set_cons_zero, countVid_cons_some, countVid_cons_none]
    | succ k0 =>
      rw [List.get?_cons_succ] at hk
      cases s with
      | none =>
        rw [List.set_cons_succ, countVid_cons_none, countVid_cons_none, ih hk]
      | some w =>
        rw [List.set_cons_succ, countVid_cons_some, countVid_cons_some, ih hk]
        exact add_right_comm _ _ _

/-- Claim C5: a completed injection leaves exactly one occupied slot carrying
the id, and re-injecting the same id with no intervening consumption returns
with the state unchanged, writing no slot. -/
theorem inject_irq_idempotent (slots slots' : List (Option Nat)) (irq_id : Nat)
    (hw hw2 : Bool) (hirq : irq_id < 2 ^ 32) (hinv : vidsOk slots)
    (h1 : inject_irq slots irq_id hw = some slots') :
    countVid irq_id slots' = 1 ∧ inject_irq slots' irq_id hw2 = some slots' := by
  rw [inject_irq_eq] at h1
  by_cases hdup : hasVid irq_id slots
  · rw [if_pos hdup] at h1
    cases h1
    refine ⟨?_, by rw [inject_irq_eq, if_pos hdup]⟩
    have hle := @countVid_le_one irq_id slots hinv
    have hge := countVid_pos hdup
    omega
  · rw [if_neg hdup] at h1
    rcases hf : firstFreeIdx slots with _ | k <;> rw [hf] at h1
    · simp at h1
    · simp only [Option.some_inj] at h1
      subst h1
      have hk := firstFreeIdx_get hf
      have hklen : k < slots.length := by
        rcases List.get?_eq_some.mp hk with ⟨h, _⟩
        exact h
      have hvid : inject_encode irq_id hw % 2 ^ 32 = irq_id := by
        rw [inject_encode_mod, Nat.mod_eq_of_lt hirq]
      have hmem : some (inject_encode irq_id hw) ∈
          slots.set k (some (inject_encode irq_id hw)) :=
        List.get?_mem (List.get?_set_eq_of_lt _ hklen)
      have hdup2 := hasVid_of_mem hmem hvid
      constructor
      · rw [countVid_set hk,
          countVid_eq_zero (Bool.not_eq_true _ ▸ hdup : hasVid irq_id slots = false),
          if_pos (show (inject_encode irq_id hw % 2 ^ 32 == irq_id) = true by
            rw [hvid, beq_self_eq_true])]
      · rw [inject_irq_eq, if_pos hdup2]

/-- Witness for inject_irq_idempotent: injecting id 7 into a two-slot state
already holding id 5. -/
theorem inject_irq_idempotent_witness :
    countVid 7 [some 5, some (inject_encode 7 true)] = 1 ∧
    inject_irq [some 5, some (inject_encode 7 true)] 7 false =
      some [some 5, some (inject_encode 7 true)] := by
  have hinv : vidsOk [some 5, none] := by
    intro i j v w hij hi hj
    rcases i with _ | _ | i <;> rcases j with _ | _ | j <;> simp_all
  exact inject_irq_idempotent [some 5, none] [some 5, some (inject_encode 7 true)]
    7 true false (by norm_num) hinv rfl

/-- Injection on an in-flight id is a no-op. -/
theorem inject_irq_dup {slots : List (Option Nat)} {irq_id : Nat} {hw : Bool}
    (h : hasVid irq_id slots = true) : inject_irq slots irq_id hw = some slots := by
  rw [inject_irq_eq, if_pos h]

/-- Injection on a fresh id with a free slot writes the first free slot. -/
theorem inject_irq_write {slots : List (Option Nat)} {irq_id k : Nat} {hw : Bool}
    (h : hasVid irq_id slots = false) (hf : firstFreeIdx slots = some k) :
    inject_irq slots irq_id hw =
      some (slots.set k (some (inject_encode irq_id hw))) := by
  rw [inject_irq_eq, h, if_neg Bool.false_ne_true, hf]

/-- Injection on a fresh id with no free slot is the fatal exhaustion. -/
theorem inject_irq_full {slots : List (Option Nat)} {irq_id : Nat} {hw : Bool}
    (h : hasVid irq_id slots = false) (hf : firstFreeIdx slots = none) :
    inject_irq slots irq_id hw = none := by
  rw [inject_irq_eq, h, if_neg Bool.false_ne_true, hf]

/-- The duplicate test distributes over appended states. -/
theorem hasVid_append (irq_id : Nat) (l1 l2 : List (Option Nat)) :
    hasVid irq_id (l1 ++ l2) = (hasVid irq_id l1 || hasVid irq_id l2) := by
  induction l1 with
  | nil => simp [hasVid]
  | cons s rest ih =>
    cases s with
    | none => rw [List.cons_append, hasVid, hasVid, ih]
    | some v => rw [List.cons_append, hasVid, hasVid, ih, Bool.or_assoc]

/-- A block of empty slots carries no id. -/
theorem hasVid_replicate (irq_id m : Nat) :
    hasVid irq_id (List.replicate m none) = false := by
  induction m with
  | zero => rfl
  | succ k ih => rw [List.replicate_succ, hasVid, ih]

/-- A prefix fully occupied by encodings of ids other than the probe carries
no occurrence of the probe id. -/
theorem hasVid_map_encode (irq_id : Nat) (ids : List Nat) (hw : Bool)
    (hb : ∀ a ∈ ids, a < 2 ^ 32) (hno : irq_id ∉ ids) :
    hasVid irq_id (ids.map (fun a => some (inject_encode a hw))) = false := by
  induction ids with
  | nil => rfl
  | cons a rest ih =>
    rw [List.map_cons, hasVid]
    have ha : a < 2 ^ 32 := hb a (List.mem_cons_self _ _)
    have hne : a ≠ irq_id := fun h => hno (h ▸ List.mem_cons_self _ _)
    have hbeq : (a == irq_id) = false := by
      rw [beq_eq_false_iff_ne]
      exact hne
    rw [inject_encode_mod, Nat.mod_eq_of_lt ha, hbeq, Bool.false_or]
    exact ih (fun b hbm => hb b (List.mem_cons_of_mem _ hbm))
      (fun hm => hno (List.mem_cons_of_mem _ hm))

/-- The first free index of an occupied prefix followed by an empty slot is
the prefix length. -/
theorem firstFreeIdx_boundary (pre : List Nat) (hw : Bool) (t : List (Option Nat)) :
    firstFreeIdx (pre.map (fun a => some (inject_encode a hw)) ++ (none :: t)) =
      some pre.length := by
  induction pre with
  | nil => rfl
  | cons a rest ih =>
    rw [List.map_cons, List.cons_append, firstFreeIdx, ih]
    rfl

/-- A fully occupied state offers no free index. -/
theorem firstFreeIdx_full (ids : List Nat) (hw : Bool) :
    firstFreeIdx (ids.map (fun a => some (inject_encode a hw))) = none := by
  induction ids with
  | nil => rfl
  | cons a rest ih =>
    rw [List.map_cons, firstFreeIdx, ih]
    rfl

/-- Writing the slot right after a prefix keeps the prefix and replaces the
head of the tail. -/
theorem set_at_boundary {α : Type} (l1 : List α) (y x : α) (l2 : List α) :
    (l1 ++ y :: l2).set l1.length x = l1 ++ x :: l2 := by
  induction l1 with
  | nil => rfl
  | cons a rest ih =>
    rw [List.cons_append, List.length_cons, List.set_cons_succ, ih, List.cons_append]

/-- A failed accumulator stays failed through the sequential injection. -/
theorem foldl_inject_none (hw : Bool) (rest : List Nat) :
    rest.foldl (fun acc a => acc.bind (fun s => inject_irq s a hw)) none = none := by
  induction rest with
  | nil => rfl
  | cons a r ih => simpa [List.foldl_cons] using ih

/-- Unfolding step of the sequential injection. -/
theorem injectAll_cons (hw : Bool) (a : Nat) (rest : List Nat)
    (slots : List (Option Nat)) :
    injectAll hw (a :: rest) slots =
      match inject_irq slots a hw with
      | some s2 => injectAll hw rest s2
      | none => none := by
  rw [injectAll, List.foldl_cons]
  rcases h : inject_irq slots a hw with _ | s2
  · simp [h, foldl_inject_none]
  · simp [h, injectAll]

/-- Sequentially injecting distinct fresh ids into the empty tail behind an
occupied prefix fills the slots left to right with their encodings. -/
theorem injectAll_fill (hw : Bool) : ∀ (ids pre : List Nat) (m : Nat),
    (pre ++ ids).Nodup → (∀ a ∈ pre ++ ids, a < 2 ^ 32) →
    injectAll hw ids
        (pre.map (fun a => some (inject_encode a hw)) ++
          List.replicate (ids.length + m) none) =
      some ((pre ++ ids).map (fun a => some (inject_encode a hw)) ++
        List.replicate m none) := by
  intro ids
  induction ids with
  | nil =>
    intro pre m _ _
    simp [injectAll]
  | cons a rest ih =>
    intro pre m hnd hb
    have hnopre : a ∉ pre := by
      rcases List.nodup_append.mp hnd with ⟨-, -, hdisj⟩
      exact fun hm => hdisj hm (List.mem_cons_self _ _)
    have hrep : List.replicate ((a :: rest).length + m) (none : Option Nat) =
        none :: List.replicate (rest.length + m) none := by
      rw [show (a :: rest).length + m = (rest.length + m) + 1 by simp; omega,
        List.replicate_succ]
    rw [hrep]
    have hv2 : hasVid a (pre.map (fun b => some (inject_encode b hw)) ++
        (none :: List.replicate (rest.length + m) none)) = false := by
      rw [hasVid_append, hasVid, hasVid_replicate, Bool.or_false]
      exact hasVid_map_encode a pre hw
        (fun b hbm => hb b (List.mem_append_left _ hbm)) hnopre
    have hstep := @inject_irq_write _ _ _ hw hv2 (firstFreeIdx_boundary pre hw _)
    rw [show pre.length = (pre.map (fun b => some (inject_encode b hw))).length from
      (List.length_map _ _).symm, set_at_boundary] at hstep
    rw [injectAll_cons, hstep]
    have hnd2 : ((pre ++ [a]) ++ rest).Nodup := by
      rw [List.append_assoc, List.singleton_append]
      exact hnd
    have hb2 : ∀ b ∈ (pre ++ [a]) ++ rest, b < 2 ^ 32 := by
      rw [List.append_assoc, List.singleton_append]
      exact hb
    have hres := ih (pre ++ [a]) m hnd2 hb2
    rw [List.append_assoc, List.singleton_append] at hres
    rw [show (pre ++ [a]).map (fun b => some (inject_encode b hw)) =
        pre.map (fun b => some (inject_encode b hw)) ++ [some (inject_encode a hw)] from
      List.map_append _ _ _, List.append_assoc, List.singleton_append] at hres
    exact hres

/-- Claim C2: injecting N distinct identifiers into an initially empty N-slot
table succeeds and occupies every slot, and a further injection of a fresh
identifier with no free slot left is the fatal exhaustion (embedded as none),
writing no slot. -/
theorem inject_irq_exhaustion (N : Nat) (hN1 : 1 ≤ N) (hN2 : N ≤ 16)
    (ids : List Nat) (hw hw2 : Bool) (hlen : ids.length = N) (hnd : ids.Nodup)
    (hb : ∀ a ∈ ids, a < 2 ^ 32) (fresh : Nat) (hf1 : fresh < 2 ^ 32)
    (hf2 : fresh ∉ ids) :
    injectAll hw ids (List.replicate N none) =
      some (ids.map (fun a => some (inject_encode a hw))) ∧
    (∀ s ∈ ids.map (fun a => some (inject_encode a hw)), s.isSome = true) ∧
    inject_irq (ids.map (fun a => some (inject_encode a hw))) fresh hw2 = none := by
  have hfill := injectAll_fill hw ids [] 0 (by simpa using hnd) (by simpa using hb)
  refine ⟨?_, ?_, ?_⟩
  · rw [← hlen, show ids.length = ids.length + 0 by omega]
    simpa using hfill
  · intro s hs
    obtain ⟨b, -, rfl⟩ := List.mem_map.mp hs
    rfl
  · exact inject_irq_full (hasVid_map_encode fresh ids hw hb hf2)
      (firstFreeIdx_full ids hw)

/-- Witness for inject_irq_exhaustion with two slots, ids 3 and 9 and the
fresh id 4. -/
theorem inject_irq_exhaustion_witness :
    injectAll true [3, 9] (List.replicate 2 none) =
      some ([3, 9].map (fun a => some (inject_encode a true))) ∧
    (∀ s ∈ [3, 9].map (fun a => some (inject_encode a true)), s.isSome = true) ∧
    inject_irq ([3, 9].map (fun a => some (inject_encode a true))) 4 false = none :=
  inject_irq_exhaustion 2 (by decide) (by decide) [3, 9] true false (by decide)
    (by decide) (by decide) 4 (by norm_num) (by decide)

/-- Hardware branch of the encoder in its fully unfolded form. -/
theorem inject_encode_hw_eq (irq_id : Nat) (h16 : 16 ≤ irq_id) (hlt : irq_id < 2 ^ 32) :
    inject_encode irq_id true =
      irq_id ||| 1 <<< 60 ||| 1 <<< 62 ||| 1 <<< 61 ||| (irq_id <<< 32) % 2 ^ 64 := by
  simp only [inject_encode]
  rw [if_pos]
  simp [is_sgi, Nat.mod_eq_of_lt hlt]
  omega

/-- Software branch of the encoder in its fully unfolded form. -/
theorem inject_encode_sgi_eq (irq_id : Nat) (hw : Bool) (h16 : irq_id < 16) :
    inject_encode irq_id hw = irq_id ||| 1 <<< 60 ||| 1 <<< 62 := by
  simp only [inject_encode]
  rw [if_neg]
  simp [is_sgi, Nat.mod_eq_of_lt (show irq_id < 2 ^ 32 by omega)]
  omega

/-- Claim C3: a hardware-injected non-SGI slot value carries the virtual id in
its low 32 bits, the physical id in the field at bits 32..59, and the group-1,
hardware-mapped and pending bits 60, 61, 62; an SGI slot value carries the id
in its low bits, a zero physical field and a clear hardware-mapped bit
whatever flag is passed, with the group-1 and pending bits still set. -/
theorem inject_irq_encode_fields (irq_id : Nat) (hw : Bool) :
    (16 ≤ irq_id → irq_id < 1020 →
      inject_encode irq_id true % 2 ^ 32 = irq_id ∧
      inject_encode irq_id true / 2 ^ 32 % 2 ^ 28 = irq_id ∧
      Nat.testBit (inject_encode irq_id true) 60 = true ∧
      Nat.testBit (inject_encode irq_id true) 62 = true ∧
      Nat.testBit (inject_encode irq_id true) 61 = true) ∧
    (irq_id < 16 →
      inject_encode irq_id hw % 2 ^ 32 = irq_id ∧
      inject_encode irq_id hw / 2 ^ 32 % 2 ^ 28 = 0 ∧
      Nat.testBit (inject_encode irq_id hw) 60 = true ∧
      Nat.testBit (inject_encode irq_id hw) 62 = true ∧
      Nat.testBit (inject_encode irq_id hw) 61 = false) := by
  constructor
  · intro h16 hlt
    have henc := inject_encode_hw_eq irq_id h16 (by omega)
    refine ⟨?_, ?_, ?_, ?_, ?_⟩
    · rw [inject_encode_mod, Nat.mod_eq_of_lt (by omega)]
    · rw [henc, ← Nat.shiftRight_eq_div_pow]
      apply Nat.eq_of_testBit_eq
      intro i
      simp only [Nat.testBit_mod_two_pow, Nat.testBit_shiftRight, Nat.testBit_or,
        Nat.one_shiftLeft, Nat.testBit_two_pow, Nat.testBit_shiftLeft]
      by_cases hi : i < 28
      · have hhi : Nat.testBit irq_id (32 + i) = false :=
          Nat.testBit_lt_two_pow (lt_of_lt_of_le (show irq_id < 2 ^ 32 by omega)
            (Nat.pow_le_pow_right (by omega) (by omega)))
        simp [hi, hhi, show ¬(60 = 32 + i) by omega, show ¬(62 = 32 + i) by omega,
          show ¬(61 = 32 + i) by omega, show 32 + i < 64 by omega,
          show 32 ≤ 32 + i by omega, Nat.add_sub_cancel_left]
      · have hlo : Nat.testBit irq_id i = false :=
          Nat.testBit_lt_two_pow (lt_of_lt_of_le (show irq_id < 2 ^ 28 by omega)
            (Nat.pow_le_pow_right (by omega) (by omega)))
        simp [hi, hlo]
    · rw [henc]
      simp only [Nat.testBit_or, Bool.or_eq_true]
      refine Or.inl (Or.inl (Or.inl (Or.inr ?_)))
      decide
    · rw [henc]
      simp only [Nat.testBit_or, Bool.or_eq_true]
      refine Or.inl (Or.inl (Or.inr ?_))
      decide
    · rw [henc]
      simp only [Nat.testBit_or, Bool.or_eq_true]
      refine Or.inl (Or.inr ?_)
      decide
  · intro h16
    have henc := inject_encode_sgi_eq irq_id hw h16
    refine ⟨?_, ?_, ?_, ?_, ?_⟩
    · rw [inject_encode_mod, Nat.mod_eq_of_lt (by omega)]
    · rw [henc, ← Nat.shiftRight_eq_div_pow]
      apply Nat.eq_of_testBit_eq
      intro i
      simp only [Nat.testBit_mod_two_pow, Nat.testBit_shiftRight, Nat.testBit_or,
        Nat.one_shiftLeft, Nat.testBit_two_pow, Nat.zero_testBit]
      by_cases hi : i < 28
      · have hhi : Nat.testBit irq_id (32 + i) = false :=
          Nat.testBit_lt_two_pow (lt_of_lt_of_le (show irq_id < 2 ^ 32 by omega)
            (Nat.pow_le_pow_right (by omega) (by omega)))
        simp [hi, hhi, show ¬(60 = 32 + i) by omega, show ¬(62 = 32 + i) by omega]
      · simp [hi]
    · rw [henc]
      simp only [Nat.testBit_or, Bool.or_eq_true]
      refine Or.inl (Or.inr ?_)
      decide
    · rw [henc]
      simp only [Nat.testBit_or, Bool.or_eq_true]
      refine Or.inr ?_
      decide
    · rw [henc]
      have hlo : Nat.testBit irq_id 61 = false :=
        Nat.testBit_lt_two_pow (lt_of_lt_of_le (show irq_id < 2 ^ 16 by omega)
          (Nat.pow_le_pow_right (by omega) (by omega)))
      simp only [Nat.testBit_or, Bool.or_eq_false_iff]
      refine ⟨⟨hlo, ?_⟩, ?_⟩ <;> decide

/-- Witness for inject_irq_encode_fields at ids 33 (hardware) and 5
(software, with the hardware flag abusively set). -/
theorem inject_irq_encode_fields_witness :
    (inject_encode 33 true % 2 ^ 32 = 33 ∧
      inject_encode 33 true / 2 ^ 32 % 2 ^ 28 = 33 ∧
      Nat.testBit (inject_encode 33 true) 60 = true ∧
      Nat.testBit (inject_encode 33 true) 62 = true ∧
      Nat.testBit (inject_encode 33 true) 61 = true) ∧
    (inject_encode 5 true % 2 ^ 32 = 5 ∧
      inject_encode 5 true / 2 ^ 32 % 2 ^ 28 = 0 ∧
      Nat.testBit (inject_encode 5 true) 60 = true ∧
      Nat.testBit (inject_encode 5 true) 62 = true ∧
      Nat.testBit (inject_encode 5 true) 61 = false) :=
  ⟨(inject_irq_encode_fields 33 true).1 (by decide) (by decide),
   (inject_irq_encode_fields 5 true).2 (by decide)⟩
